import Mathlib

/-!
Verification of the DBLP paper-listing synchronization job.

This file shallowly embeds the program's core logic in Lean 4:

* `write_venue_yaml` (src/src/utils.py, lines 189-237): merging canonical
  items into a persisted per-venue, per-year document,
* `get_dblp_items` (src/src/utils.py, lines 68-111): normalizing raw API
  hits into canonical item records,
* `get_msg` (src/src/utils.py, lines 114-133): rendering the per-topic
  summary message,
* the cache-filtering and message-clipping steps of `Scaffold.run`
  (src/src/main.py, lines 60-70 and 84-90),

and proves (or refutes) the frozen specification claims about them.

Python dictionaries are modelled as association lists preserving insertion
order (Python 3.7+ guarantees insertion order); dynamically typed values
are modelled with a small value type `PyVal` where needed.  Raised
exceptions are modelled as `none` / explicit error outcomes.  Python's
`list.sort` / `sorted` are stable sorts; a stable sort's output is uniquely
determined by the input and the (total, transitive) comparison, so they are
modelled by `List.insertionSort`, which is stable.
-/

/-! ## Python string comparison (code-point lexicographic) -/

/-- Python `<=` on strings, as a comparison of code-point lists:
lexicographic by code point, shorter prefix first. -/
def lexLe : List Char → List Char → Bool
  | [], _ => true
  | _ :: _, [] => false
  | a :: as, b :: bs =>
    if a.toNat < b.toNat then true
    else if b.toNat < a.toNat then false
    else lexLe as bs

/-- Python `a <= b` on strings. -/
def strLe (a b : String) : Bool := lexLe a.data b.data

theorem lexLe_total : ∀ a b : List Char, lexLe a b = true ∨ lexLe b a = true
  | [], _ => Or.inl rfl
  | _ :: _, [] => Or.inr rfl
  | a :: as, b :: bs => by
    by_cases hab : a.toNat < b.toNat
    · left; simp [lexLe, hab]
    · by_cases hba : b.toNat < a.toNat
      · right; simp [lexLe, hba]
      · have := lexLe_total as bs
        rcases this with h | h
        · left; simp [lexLe, hab, hba, h]
        · right; simp [lexLe, hab, hba, h]

theorem lexLe_trans :
    ∀ a b c : List Char, lexLe a b = true → lexLe b c = true → lexLe a c = true
  | [], _, _, _, _ => rfl
  | _ :: _, [], _, h, _ => by simp [lexLe] at h
  | _ :: _, _ :: _, [], _, h => by simp [lexLe] at h
  | a :: as, b :: bs, c :: cs, hab, hbc => by
    simp only [lexLe] at hab hbc ⊢
    split at hab
    · rename_i h1
      split at hbc
      · rename_i h2; simp [Nat.lt_trans h1 h2]
      · split at hbc
        · exact absurd hbc (by simp)
        · rename_i h2 h3
          have hbc' : b.toNat = c.toNat := Nat.le_antisymm (Nat.le_of_not_lt h3) (Nat.le_of_not_lt h2)
          simp [hbc' ▸ h1]
    · split at hab
      · exact absurd hab (by simp)
      · rename_i h1 h2
        have hab' : a.toNat = b.toNat := Nat.le_antisymm (Nat.le_of_not_lt h2) (Nat.le_of_not_lt h1)
        split at hbc
        · rename_i h3; simp [hab' ▸ h3]
        · split at hbc
          · exact absurd hbc (by simp)
          · rename_i h3 h4
            have hbc' : b.toNat = c.toNat :=
              Nat.le_antisymm (Nat.le_of_not_lt h4) (Nat.le_of_not_lt h3)
            simp only [hab', hbc', Nat.lt_irrefl, if_false]
            exact lexLe_trans as bs cs hab hbc

/-! ## Association lists (Python `dict` with insertion order) -/

/-- First-match lookup in an association list, i.e. Python `d[k]` /
`k in d` on a dict whose pairs are listed in insertion order. -/
def alookup {β : Type} : List (String × β) → String → Option β
  | [], _ => none
  | p :: rest, k => if p.1 = k then some p.2 else alookup rest k

/-- Replace the value stored at the first occurrence of key `k`
(Python `d[k] = v` for a key already present; keeps key position). -/
def updA {β : Type} : List (String × β) → String → β → List (String × β)
  | [], _, _ => []
  | p :: rest, k, v => if p.1 = k then (p.1, v) :: rest else p :: updA rest k v

/-- The keys of an association list are pairwise distinct (always true of a
real Python dict; an invariant of the embedding, not of the program). -/
def NodupKeys {β : Type} (l : List (String × β)) : Prop :=
  (l.map Prod.fst).Nodup

/-! ## Canonical items and the venue document -/

/-- Canonical publication record produced by the normalizer
(`get_dblp_items`): every field is present, missing source fields having
been normalized to the empty string. -/
structure Item where
  author : String
  title : String
  venue : String
  year : String
  ptype : String
  access : String
  key : String
  doi : String
  ee : String
  url : String
deriving DecidableEq, Repr

/-- The view of an item that `write_venue_yaml` actually reads: `title` via
`item["title"]` (raises when absent), the rest via `item.get(...)`, so they
are optional here.  `none` models an absent dict key. -/
structure RawItem where
  title : String
  venue : Option String
  year : Option String
  ee : Option String
  url : Option String
deriving DecidableEq, Repr

/-- Canonical items always carry every key (possibly as `""`). -/
def Item.raw (it : Item) : RawItem :=
  { title := it.title, venue := some it.venue, year := some it.year,
    ee := some it.ee, url := some it.url }

/-- Python `a or b` on optional strings: `None` and `""` are falsy. -/
def pyOr (a b : Option String) : Option String :=
  match a with
  | some s => if s = "" then b else some s
  | none => b

/-- Python `s.isdigit()` restricted to ASCII digits. -/
def pyIsdigit (s : String) : Bool :=
  s ≠ "" && s.data.all Char.isDigit

/-- Python `int(s)` for an all-ASCII-digit string. -/
def pyInt (s : String) : Nat :=
  s.data.foldl (fun n c => n * 10 + (c.toNat - 48)) 0

/-- The `year` value stored in a body entry:
`int(year) if year.isdigit() else year`. -/
inductive YearVal where
  | int (n : Nat)
  | str (s : String)
deriving DecidableEq, Repr

/-- `int(year) if year.isdigit() else year` (line 226 of utils.py). -/
def pyYearVal (year : String) : YearVal :=
  if pyIsdigit year then .int (pyInt year) else .str year

/-- One `body` entry: `{title, venue, year, link}` (lines 223-228). -/
structure Entry where
  title : String
  venue : String
  year : YearVal
  link : Option String
deriving DecidableEq, Repr

/-- A year-bucket: `{header, length, body}` (lines 213-217). -/
structure Bucket where
  header : List (String × String)
  length : List (String × Nat)
  body : List Entry
deriving DecidableEq, Repr

/-- `DEFAULT_HEADER` (utils.py lines 13-18). -/
def defaultHeader : List (String × String) :=
  [("title", "Title"), ("venue", " Venue"), ("year", " Year "), ("link", "Link")]

/-- `DEFAULT_LENGTH` (utils.py lines 20-25). -/
def defaultLength : List (String × Nat) :=
  [("title", 60), ("venue", 53), ("year", 4), ("link", 60)]

/-- A freshly initialized year-bucket (lines 213-217). -/
def freshBucket : Bucket :=
  { header := defaultHeader, length := defaultLength, body := [] }

/-- The venue document: top-level dict with an optional `"section"` key
(a list of section-entry titles `{"title": venue}`) and the venue keys in
insertion order, each mapping year strings to buckets.  `sectionKey = none`
models a loaded document lacking the `"section"` key. -/
structure Doc where
  sectionKey : Option (List String)
  venues : List (String × List (String × Bucket))
deriving DecidableEq, Repr

/-- `{"section": []}`, the initial document (line 198). -/
def initDoc : Doc := { sectionKey := some [], venues := [] }

/-- Keys of a real Python dict are unique at both nesting levels. -/
def Doc.WF (d : Doc) : Prop :=
  NodupKeys d.venues ∧ ∀ p ∈ d.venues, NodupKeys p.2

/-- Ordering used by `body.sort(key=lambda x: x["title"])` (line 229). -/
def titleLe (p q : Entry) : Prop := strLe p.title q.title = true

instance : DecidableRel titleLe := fun _ _ => instDecidableEqBool _ _

instance : IsTotal Entry titleLe := ⟨fun p q => lexLe_total p.title.data q.title.data⟩

instance : IsTrans Entry titleLe :=
  ⟨fun p q r => lexLe_trans p.title.data q.title.data r.title.data⟩

/-- `body.sort(key=lambda x: x["title"])`: stable ascending sort by title. -/
def sortBody (body : List Entry) : List Entry :=
  body.insertionSort titleLe

/-- Ordering used by
`sorted(data[key].items(), key=lambda x: x[0], reverse=True)` (line 234):
descending by year key, stable on ties. -/
def yearGe (a b : String × Bucket) : Prop := strLe b.1 a.1 = true

instance : DecidableRel yearGe := fun _ _ => instDecidableEqBool _ _

instance : IsTotal (String × Bucket) yearGe :=
  ⟨fun p q => lexLe_total q.1.data p.1.data⟩

instance : IsTrans (String × Bucket) yearGe :=
  ⟨fun p q r hpq hqr => lexLe_trans r.1.data q.1.data p.1.data hqr hpq⟩

/-- `dict(sorted(....items(), key=lambda x: x[0], reverse=True))`: stable
descending sort of a venue's year-buckets by year string. -/
def sortYears (ys : List (String × Bucket)) : List (String × Bucket) :=
  ys.insertionSort yearGe

/-- `venue = item.get("venue", "Unknown Venue")` (line 201): the default
applies only when the key is absent, not when the value is empty. -/
def RawItem.bVenue (it : RawItem) : String := it.venue.getD "Unknown Venue"

/-- `year = str(item.get("year", "Unknown Year"))` (line 202). -/
def RawItem.bYear (it : RawItem) : String := it.year.getD "Unknown Year"

/-- Lines 206-207: `if not any(s['title'] == venue for s in data["section"]):
data["section"].append({"title": venue})`. -/
def mergeSection (sec : List String) (venue : String) : List String :=
  if sec.any (fun t => t = venue) then sec else sec ++ [venue]

/-- Lines 209-210: `if venue not in data: data[venue] = {}`. -/
def mergeVens (vens : List (String × List (String × Bucket))) (venue : String) :
    List (String × List (String × Bucket)) :=
  match alookup vens venue with
  | none => vens ++ [(venue, [])]
  | some _ => vens

/-- Lines 212-217: `if year not in data[venue]:` initialize the bucket. -/
def mergeYears (ys : List (String × Bucket)) (year : String) :
    List (String × Bucket) :=
  match alookup ys year with
  | none => ys ++ [(year, freshBucket)]
  | some _ => ys

/-- The body entry appended for an item (lines 223-228): title, bucket
venue, year (int when all digits), and `link = item.get("ee") or
item.get("url")` (line 203). -/
def newEntry (it : RawItem) (venue year : String) : Entry :=
  { title := it.title, venue := venue, year := pyYearVal year,
    link := pyOr it.ee it.url }

/-- Lines 219-229: dedup by title, append the new entry, re-sort by title. -/
def mergeBody (body : List Entry) (it : RawItem) (venue year : String) :
    List Entry :=
  if body.any (fun p => p.title = it.title) then body
  else sortBody (body ++ [newEntry it venue year])

/-- The per-item body of the loop in `write_venue_yaml` (lines 200-229).
`none` models a raised exception: `KeyError: 'section'` when the loaded
document has no `"section"` key (line 206), and the `TypeError` that
subscripting the section list produces when an item's venue is the literal
string `"section"` (line 213 would do `data["section"][year] = ...`; the
exception discards the in-memory state, so nothing is persisted). -/
def mergeItem (d : Doc) (it : RawItem) : Option Doc :=
  match d.sectionKey with
  | none => none
  | some sec =>
    let venue := it.bVenue
    let year := it.bYear
    if venue = "section" then none
    else
      let vens := mergeVens d.venues venue
      let ys1 := mergeYears ((alookup vens venue).getD []) year
      let b := (alookup ys1 year).getD freshBucket
      some { sectionKey := some (mergeSection sec venue),
             venues := updA vens venue
               (updA ys1 year { b with body := mergeBody b.body it venue year }) }

/-- The `for item in items` loop of `write_venue_yaml`. -/
def mergeItems (d : Doc) : List RawItem → Option Doc
  | [] => some d
  | it :: rest =>
    match mergeItem d it with
    | none => none
    | some d' => mergeItems d' rest

/-- The trailing year re-sort loop (lines 232-234): every top-level key
except `"section"` holds a dict in this model, so each venue's year map is
re-sorted descending by key. -/
def finalize (d : Doc) : Doc :=
  { d with venues := d.venues.map (fun p => (p.1, sortYears p.2)) }

/-- `write_venue_yaml` applied to an already-loaded document: process all
items, then re-sort years; `none` models an uncaught exception (nothing is
persisted). -/
def write_venue_yaml (d : Doc) (items : List RawItem) : Option Doc :=
  (mergeItems d items).map finalize

/-- State of the on-disk document before a merge: the file may be absent,
may exist but load as a falsy value (`yaml.safe_load` returning `None` for
an empty file), or hold a document. -/
inductive DocFile where
  | absent
  | emptyLoad
  | loaded (d : Doc)

/-- Lines 193-198 of utils.py: an absent file initializes
`{"section": []}`; an existing file that loads falsy becomes `{}` (no
`"section"` key!); otherwise the loaded document is used. -/
def loadVenueDoc : DocFile → Doc
  | .absent => initDoc
  | .emptyLoad => { sectionKey := none, venues := [] }
  | .loaded d => d

/-- The whole merge operation starting from the on-disk state. -/
def mergeFile (fs : DocFile) (items : List RawItem) : Option Doc :=
  write_venue_yaml (loadVenueDoc fs) items

example :
    write_venue_yaml initDoc
      [{ title := "Foo", venue := some "AAAI", year := some "2024",
         ee := some "", url := some "u" }] =
    some { sectionKey := some ["AAAI"],
           venues := [("AAAI", [("2024",
             { header := defaultHeader, length := defaultLength,
               body := [{ title := "Foo", venue := "AAAI",
                          year := .int 2024, link := some "u" }] })])] } := by
  decide

/-! ## Association-list lemmas -/

theorem alookup_append_left {β : Type} {l : List (String × β)} {k : String} {v : β}
    (l' : List (String × β)) (h : alookup l k = some v) :
    alookup (l ++ l') k = some v := by
  induction l with
  | nil => simp [alookup] at h
  | cons p rest ih =>
    simp only [alookup, List.cons_append] at h ⊢
    by_cases he : p.1 = k
    · rwa [if_pos he] at h ⊢
    · rw [if_neg he] at h ⊢
      exact ih h

theorem alookup_append_fresh {β : Type} {l : List (String × β)} {k : String}
    (v : β) (h : alookup l k = none) :
    alookup (l ++ [(k, v)]) k = some v := by
  induction l with
  | nil => simp [alookup]
  | cons p rest ih =>
    simp only [alookup, List.cons_append] at h ⊢
    split at h
    · exact absurd h (by simp)
    · simp only [*, if_false]
      exact ih h

theorem alookup_eq_none_iff {β : Type} {l : List (String × β)} {k : String} :
    alookup l k = none ↔ k ∉ l.map Prod.fst := by
  induction l with
  | nil => simp [alookup]
  | cons p rest ih =>
    simp only [alookup, List.map_cons, List.mem_cons]
    split
    · rename_i h
      simp [h]
    · rename_i h
      rw [ih]
      constructor
      · intro hn hor
        rcases hor with h1 | h2
        · exact h h1.symm
        · exact hn h2
      · intro hn h2
        exact hn (Or.inr h2)

theorem alookup_mem {β : Type} {l : List (String × β)} {k : String} {v : β}
    (h : alookup l k = some v) : (k, v) ∈ l := by
  induction l with
  | nil => simp [alookup] at h
  | cons p rest ih =>
    simp only [alookup] at h
    split at h
    · rename_i he
      cases h
      simp [← he]
    · simp [ih h]

theorem alookup_of_mem_nodup {β : Type} {l : List (String × β)} {k : String} {v : β}
    (nd : NodupKeys l) (h : (k, v) ∈ l) : alookup l k = some v := by
  induction l with
  | nil => simp at h
  | cons p rest ih =>
    simp only [NodupKeys, List.map_cons, List.nodup_cons] at nd
    rcases List.mem_cons.mp h with he | hm
    · simp [alookup, ← he]
    · have hk : p.1 ≠ k := by
        intro hk
        exact nd.1 (hk ▸ List.mem_map.mpr ⟨(k, v), hm, rfl⟩)
      simp only [alookup, hk, if_false]
      exact ih nd.2 hm

theorem updA_self {β : Type} {l : List (String × β)} {k : String} {v : β}
    (h : alookup l k = some v) : updA l k v = l := by
  induction l with
  | nil => rfl
  | cons p rest ih =>
    simp only [alookup] at h
    simp only [updA]
    by_cases he : p.1 = k
    · rw [if_pos he] at h
      rw [if_pos he]
      injection h with h2
      rw [← h2]
    · rw [if_neg he] at h
      rw [if_neg he, ih h]

theorem alookup_updA_self {β : Type} {l : List (String × β)} {k : String}
    (h : alookup l k ≠ none) (v : β) : alookup (updA l k v) k = some v := by
  induction l with
  | nil => simp [alookup] at h
  | cons p rest ih =>
    simp only [alookup, updA] at h ⊢
    by_cases he : p.1 = k
    · simp [he, alookup]
    · rw [if_neg he] at h ⊢
      simp only [alookup, if_neg he]
      exact ih h

theorem alookup_updA_ne {β : Type} {l : List (String × β)} {k k' : String}
    (h : k' ≠ k) (v : β) : alookup (updA l k v) k' = alookup l k' := by
  induction l with
  | nil => rfl
  | cons p rest ih =>
    simp only [updA]
    split
    · rename_i he
      have hne : p.1 ≠ k' := fun hh => h (he.symm.trans hh).symm
      simp [alookup, hne]
    · simp only [alookup, ih]

theorem updA_map_fst {β : Type} (l : List (String × β)) (k : String) (v : β) :
    (updA l k v).map Prod.fst = l.map Prod.fst := by
  induction l with
  | nil => rfl
  | cons p rest ih =>
    simp only [updA]
    split
    · simp
    · simp [ih]

theorem mem_updA {β : Type} {l : List (String × β)} {k : String} {v : β}
    {p : String × β} (h : p ∈ updA l k v) : p ∈ l ∨ p = (k, v) := by
  induction l with
  | nil => simp [updA] at h
  | cons q rest ih =>
    simp only [updA] at h
    split at h
    · rename_i he
      rcases List.mem_cons.mp h with h1 | h1
      · right; rw [h1, he]
      · left; simp [h1]
    · rcases List.mem_cons.mp h with h1 | h1
      · left; simp [h1]
      · rcases ih h1 with h2 | h2
        · left; simp [h2]
        · right; exact h2

theorem nodupKeys_perm {β : Type} {l l' : List (String × β)} (hp : l.Perm l')
    (nd : NodupKeys l) : NodupKeys l' :=
  ((hp.map Prod.fst).nodup_iff).mp nd

theorem alookup_perm {β : Type} {l l' : List (String × β)} (hp : l.Perm l')
    (nd : NodupKeys l) (k : String) : alookup l k = alookup l' k := by
  cases h : alookup l k with
  | some v =>
    exact (alookup_of_mem_nodup (nodupKeys_perm hp nd) (hp.mem_iff.mp (alookup_mem h))).symm
  | none =>
    cases h' : alookup l' k with
    | some v =>
      have := alookup_mem h'
      have hin : k ∈ l.map Prod.fst :=
        List.mem_map.mpr ⟨(k, v), hp.mem_iff.mpr this, rfl⟩
      exact absurd hin (alookup_eq_none_iff.mp h)
    | none => rfl

theorem alookup_mapval {β γ : Type} (f : β → γ) (l : List (String × β)) (k : String) :
    alookup (l.map (fun p => (p.1, f p.2))) k = (alookup l k).map f := by
  induction l with
  | nil => rfl
  | cons p rest ih =>
    simp only [List.map_cons, alookup]
    split
    · rfl
    · exact ih

/-! ## Helper lemmas about the merge steps -/

theorem mem_mergeSection_self (sec : List String) (venue : String) :
    venue ∈ mergeSection sec venue := by
  unfold mergeSection
  split
  · rename_i h
    obtain ⟨t, ht, he⟩ := List.any_eq_true.mp h
    exact (of_decide_eq_true he) ▸ ht
  · simp

theorem mem_mergeSection_mono {sec : List String} {x : String} (venue : String)
    (h : x ∈ sec) : x ∈ mergeSection sec venue := by
  unfold mergeSection
  split
  · exact h
  · simp [h]

theorem mergeSection_of_mem {sec : List String} {venue : String}
    (h : venue ∈ sec) : mergeSection sec venue = sec := by
  unfold mergeSection
  rw [if_pos (List.any_eq_true.mpr ⟨venue, h, decide_eq_true rfl⟩)]

theorem mergeVens_of_some {vens : List (String × List (String × Bucket))}
    {venue : String} {ys : List (String × Bucket)}
    (h : alookup vens venue = some ys) : mergeVens vens venue = vens := by
  unfold mergeVens
  rw [h]

theorem alookup_mergeVens_isSome (vens : List (String × List (String × Bucket)))
    (venue : String) : alookup (mergeVens vens venue) venue ≠ none := by
  unfold mergeVens
  cases h : alookup vens venue with
  | none => rw [alookup_append_fresh [] h]; simp
  | some ys => rw [h]; simp

theorem alookup_mergeVens_pres {vens : List (String × List (String × Bucket))}
    {k : String} {ys : List (String × Bucket)} (venue : String)
    (h : alookup vens k = some ys) :
    alookup (mergeVens vens venue) k = some ys := by
  unfold mergeVens
  cases h2 : alookup vens venue with
  | none => exact alookup_append_left _ h
  | some _ => exact h

theorem mem_mergeVens {vens : List (String × List (String × Bucket))}
    {venue : String} {p : String × List (String × Bucket)}
    (h : p ∈ mergeVens vens venue) : p ∈ vens ∨ p = (venue, []) := by
  unfold mergeVens at h
  split at h
  · rcases List.mem_append.mp h with h1 | h1
    · exact Or.inl h1
    · exact Or.inr (by simpa using h1)
  · exact Or.inl h

theorem mergeYears_of_some {ys : List (String × Bucket)} {year : String} {b : Bucket}
    (h : alookup ys year = some b) : mergeYears ys year = ys := by
  unfold mergeYears
  rw [h]

theorem alookup_mergeYears_isSome (ys : List (String × Bucket)) (year : String) :
    alookup (mergeYears ys year) year ≠ none := by
  unfold mergeYears
  cases h : alookup ys year with
  | none => rw [alookup_append_fresh freshBucket h]; simp
  | some b => rw [h]; simp

theorem alookup_mergeYears_pres {ys : List (String × Bucket)} {k : String} {b : Bucket}
    (year : String) (h : alookup ys k = some b) :
    alookup (mergeYears ys year) k = some b := by
  unfold mergeYears
  cases h2 : alookup ys year with
  | none => exact alookup_append_left _ h
  | some _ => exact h

theorem mem_mergeYears {ys : List (String × Bucket)} {year : String}
    {q : String × Bucket} (h : q ∈ mergeYears ys year) :
    q ∈ ys ∨ q = (year, freshBucket) := by
  unfold mergeYears at h
  split at h
  · rcases List.mem_append.mp h with h1 | h1
    · exact Or.inl h1
    · exact Or.inr (by simpa using h1)
  · exact Or.inl h

theorem mergeBody_mem_title (body : List Entry) (it : RawItem) (venue year : String) :
    ∃ e ∈ mergeBody body it venue year, e.title = it.title := by
  unfold mergeBody
  split
  · rename_i h
    obtain ⟨e, he, hd⟩ := List.any_eq_true.mp h
    exact ⟨e, he, of_decide_eq_true hd⟩
  · refine ⟨newEntry it venue year, ?_, rfl⟩
    unfold sortBody
    rw [List.mem_insertionSort]
    simp

theorem mergeBody_mem_mono {body : List Entry} {t : String} (it : RawItem)
    (venue year : String) (h : ∃ e ∈ body, e.title = t) :
    ∃ e ∈ mergeBody body it venue year, e.title = t := by
  obtain ⟨e, he, ht⟩ := h
  unfold mergeBody
  split
  · exact ⟨e, he, ht⟩
  · refine ⟨e, ?_, ht⟩
    unfold sortBody
    rw [List.mem_insertionSort]
    simp [he]

theorem mergeBody_of_mem {body : List Entry} {it : RawItem} (venue year : String)
    (h : ∃ e ∈ body, e.title = it.title) :
    mergeBody body it venue year = body := by
  obtain ⟨e, he, ht⟩ := h
  unfold mergeBody
  rw [if_pos (List.any_eq_true.mpr ⟨e, he, decide_eq_true ht⟩)]

/-! ## Absorption: an item already fully reflected in a document -/

/-- `it` is fully reflected in `d`: its venue is listed in `section`, its
venue/year bucket exists, and its title is already in that bucket's body.
Processing such an item is a no-op. -/
def Absorbed (d : Doc) (it : RawItem) : Prop :=
  (∃ sec, d.sectionKey = some sec ∧ it.bVenue ∈ sec) ∧
  it.bVenue ≠ "section" ∧
  ∃ ys b, alookup d.venues it.bVenue = some ys ∧ alookup ys it.bYear = some b ∧
    ∃ e ∈ b.body, e.title = it.title

theorem absorbed_of_mergeItem {d : Doc} {it : RawItem} {d₁ : Doc}
    (h : mergeItem d it = some d₁) : Absorbed d₁ it := by
  cases hs : d.sectionKey with
  | none => rw [mergeItem, hs] at h; cases h
  | some sec =>
    rw [mergeItem, hs] at h
    simp only at h
    by_cases hv : it.bVenue = "section"
    · rw [if_pos hv] at h; cases h
    · rw [if_neg hv] at h
      injection h with h
      subst h
      refine ⟨⟨_, rfl, mem_mergeSection_self sec it.bVenue⟩, hv, ?_⟩
      refine ⟨_, _, alookup_updA_self (alookup_mergeVens_isSome _ _) _,
              alookup_updA_self (alookup_mergeYears_isSome _ _) _, ?_⟩
      exact mergeBody_mem_title _ _ _ _

theorem absorbed_mergeItem_mono {d : Doc} {it it2 : RawItem} {d₁ : Doc}
    (ha : Absorbed d it) (h : mergeItem d it2 = some d₁) : Absorbed d₁ it := by
  obtain ⟨⟨sec, hs, hsec⟩, hv, ys, b, hys, hb, ht⟩ := ha
  rw [mergeItem, hs] at h
  simp only at h
  by_cases hv2 : it2.bVenue = "section"
  · rw [if_pos hv2] at h; cases h
  · rw [if_neg hv2] at h
    injection h with h
    subst h
    refine ⟨⟨_, rfl, mem_mergeSection_mono _ hsec⟩, hv, ?_⟩
    by_cases hvv : it.bVenue = it2.bVenue
    · -- same venue bucket
      rw [hvv] at hys
      have hvens : mergeVens d.venues it2.bVenue = d.venues := mergeVens_of_some hys
      rw [hvv, hvens, hys]
      simp only [Option.getD_some]
      by_cases hyy : it.bYear = it2.bYear
      · -- same year bucket: the new body still contains the title
        rw [hyy] at hb ⊢
        have hys1 : mergeYears ys it2.bYear = ys := mergeYears_of_some hb
        rw [hys1, hb]
        simp only [Option.getD_some]
        exact ⟨_, _, alookup_updA_self (by rw [hys]; simp) _,
          alookup_updA_self (by rw [hb]; simp) _,
          mergeBody_mem_mono _ _ _ ht⟩
      · -- different year bucket: untouched
        refine ⟨_, b, alookup_updA_self (by rw [hys]; simp) _, ?_, ht⟩
        rw [alookup_updA_ne hyy]
        exact alookup_mergeYears_pres _ hb
    · -- different venue: untouched
      refine ⟨ys, b, ?_, hb, ht⟩
      rw [alookup_updA_ne hvv]
      exact alookup_mergeVens_pres _ hys

theorem mergeItem_absorbed_eq {d : Doc} {it : RawItem} (ha : Absorbed d it) :
    mergeItem d it = some d := by
  obtain ⟨⟨sec, hs, hsec⟩, hv, ys, b, hys, hb, ht⟩ := ha
  rw [mergeItem, hs]
  simp only
  rw [if_neg hv]
  rw [mergeVens_of_some hys, hys]
  simp only [Option.getD_some]
  rw [mergeYears_of_some hb, hb]
  simp only [Option.getD_some]
  rw [mergeBody_of_mem _ _ ht]
  have hbb : ({ b with body := b.body } : Bucket) = b := rfl
  rw [hbb, updA_self hb, updA_self hys, mergeSection_of_mem hsec]
  rw [← hs]

/-! ## Well-formedness preservation and transport through `finalize` -/

theorem nodupKeys_nil {β : Type} : NodupKeys ([] : List (String × β)) :=
  List.nodup_nil

theorem nodupKeys_append_fresh {β : Type} {l : List (String × β)} {k : String}
    (v : β) (nd : NodupKeys l) (h : alookup l k = none) :
    NodupKeys (l ++ [(k, v)]) := by
  have hk := alookup_eq_none_iff.mp h
  simp only [NodupKeys, List.map_append, List.map_cons, List.map_nil]
  rw [List.nodup_append]
  refine ⟨nd, List.nodup_singleton k, ?_⟩
  intro a ha hb
  rw [List.mem_singleton] at hb
  exact hk (hb ▸ ha)

theorem nodupKeys_updA {β : Type} {l : List (String × β)} (k : String) (v : β)
    (nd : NodupKeys l) : NodupKeys (updA l k v) := by
  unfold NodupKeys
  rw [updA_map_fst]
  exact nd

theorem nodupKeys_mergeVens {vens : List (String × List (String × Bucket))}
    (venue : String) (nd : NodupKeys vens) : NodupKeys (mergeVens vens venue) := by
  unfold mergeVens
  cases h : alookup vens venue with
  | none => exact nodupKeys_append_fresh _ nd h
  | some _ => exact nd

theorem nodupKeys_mergeYears {ys : List (String × Bucket)} (year : String)
    (nd : NodupKeys ys) : NodupKeys (mergeYears ys year) := by
  unfold mergeYears
  cases h : alookup ys year with
  | none => exact nodupKeys_append_fresh _ nd h
  | some _ => exact nd

theorem wf_mergeItem {d : Doc} {it : RawItem} {d₁ : Doc} (hwf : d.WF)
    (h : mergeItem d it = some d₁) : d₁.WF := by
  cases hs : d.sectionKey with
  | none => rw [mergeItem, hs] at h; cases h
  | some sec =>
    rw [mergeItem, hs] at h
    simp only at h
    by_cases hv : it.bVenue = "section"
    · rw [if_pos hv] at h; cases h
    · rw [if_neg hv] at h
      injection h with h
      subst h
      constructor
      · exact nodupKeys_updA _ _ (nodupKeys_mergeVens _ hwf.1)
      · intro p hp
        rcases mem_updA hp with h1 | h1
        · rcases mem_mergeVens h1 with h2 | h2
          · exact hwf.2 p h2
          · rw [h2]; exact nodupKeys_nil
        · rw [h1]
          apply nodupKeys_updA
          apply nodupKeys_mergeYears
          cases hys : alookup (mergeVens d.venues it.bVenue) it.bVenue with
          | none => simp [nodupKeys_nil]
          | some ys =>
            simp only [Option.getD_some]
            rcases mem_mergeVens (alookup_mem hys) with h2 | h2
            · exact hwf.2 _ h2
            · injection h2 with _ h3; rw [h3]; exact nodupKeys_nil

theorem mapval_map_fst {β γ : Type} (f : β → γ) (l : List (String × β)) :
    (l.map (fun p => (p.1, f p.2))).map Prod.fst = l.map Prod.fst := by
  induction l with
  | nil => rfl
  | cons p rest ih => simp [ih]

theorem wf_finalize {d : Doc} (hwf : d.WF) : (finalize d).WF := by
  constructor
  · show NodupKeys (d.venues.map fun p => (p.1, sortYears p.2))
    unfold NodupKeys
    rw [mapval_map_fst]
    exact hwf.1
  · intro p hp
    obtain ⟨q, hq, he⟩ := List.mem_map.mp hp
    rw [← he]
    exact nodupKeys_perm (List.perm_insertionSort yearGe q.2).symm (hwf.2 q hq)

theorem absorbed_finalize {d : Doc} {it : RawItem} (hwf : d.WF)
    (ha : Absorbed d it) : Absorbed (finalize d) it := by
  obtain ⟨⟨sec, hs, hsec⟩, hv, ys, b, hys, hb, ht⟩ := ha
  refine ⟨⟨sec, hs, hsec⟩, hv, sortYears ys, b, ?_, ?_, ht⟩
  · show alookup (d.venues.map fun p => (p.1, sortYears p.2)) it.bVenue = _
    rw [alookup_mapval, hys]
    rfl
  · have hnd : NodupKeys ys := hwf.2 (it.bVenue, ys) (alookup_mem hys)
    have hp : List.Perm ys (sortYears ys) := (List.perm_insertionSort yearGe ys).symm
    rw [← alookup_perm hp hnd]
    exact hb

/-! ## Folding the item loop -/

theorem wf_mergeItems {l : List RawItem} :
    ∀ {d m : Doc}, d.WF → mergeItems d l = some m → m.WF := by
  induction l with
  | nil => intro d m hwf h; injection h with h; exact h ▸ hwf
  | cons it rest ih =>
    intro d m hwf h
    rw [mergeItems] at h
    cases him : mergeItem d it with
    | none => rw [him] at h; cases h
    | some d₁ =>
      rw [him] at h
      exact ih (wf_mergeItem hwf him) h

theorem absorbed_mergeItems_mono {l : List RawItem} :
    ∀ {d m : Doc} {it : RawItem}, Absorbed d it → mergeItems d l = some m →
      Absorbed m it := by
  induction l with
  | nil => intro d m it ha h; injection h with h; exact h ▸ ha
  | cons it2 rest ih =>
    intro d m it ha h
    rw [mergeItems] at h
    cases him : mergeItem d it2 with
    | none => rw [him] at h; cases h
    | some d₁ =>
      rw [him] at h
      exact ih (absorbed_mergeItem_mono ha him) h

theorem absorbed_all {l : List RawItem} :
    ∀ {d m : Doc}, mergeItems d l = some m → ∀ it ∈ l, Absorbed m it := by
  induction l with
  | nil => intro d m _ it hit; simp at hit
  | cons it2 rest ih =>
    intro d m h it hit
    rw [mergeItems] at h
    cases him : mergeItem d it2 with
    | none => rw [him] at h; cases h
    | some d₁ =>
      rw [him] at h
      rcases List.mem_cons.mp hit with h1 | h1
      · exact absorbed_mergeItems_mono (h1 ▸ absorbed_of_mergeItem him) h
      · exact ih h it h1

theorem mergeItems_absorbed_eq {l : List RawItem} :
    ∀ {d : Doc}, (∀ it ∈ l, Absorbed d it) → mergeItems d l = some d := by
  induction l with
  | nil => intro d _; rfl
  | cons it rest ih =>
    intro d ha
    rw [mergeItems, mergeItem_absorbed_eq (ha it (List.mem_cons_self it rest))]
    exact ih fun it2 h2 => ha it2 (List.mem_cons_of_mem it h2)

theorem sortYears_sortYears (ys : List (String × Bucket)) :
    sortYears (sortYears ys) = sortYears ys :=
  List.Sorted.insertionSort_eq (List.sorted_insertionSort yearGe ys)

theorem finalize_finalize (d : Doc) : finalize (finalize d) = finalize d := by
  cases d with
  | mk sk vens =>
    simp only [finalize, List.map_map]
    congr 1
    apply List.map_congr_left
    intro p _
    simp [Function.comp, sortYears_sortYears]

/-- C1: Merging into a venue document is idempotent: if `write_venue_yaml`
persists `d'` from document state `d` and item list `items`, then running
the same merge again over `d'` persists `d'` unchanged — no duplicate body
entries, no duplicate section entries, no reordering beyond the sorts the
first merge already applied.  The `Doc.WF` hypothesis states that the
starting document is a real Python dict (unique keys at both levels), which
holds for every document the program can load or produce. -/
theorem venue_merge_idempotent (d : Doc) (items : List RawItem) (d' : Doc)
    (hwf : d.WF) (h : write_venue_yaml d items = some d') :
    write_venue_yaml d' items = some d' := by
  unfold write_venue_yaml at h ⊢
  cases hm : mergeItems d items with
  | none => rw [hm] at h; cases h
  | some m =>
    rw [hm] at h
    simp only [Option.map_some'] at h
    injection h with h
    subst h
    have hwfm : m.WF := wf_mergeItems hwf hm
    have habs : ∀ it ∈ items, Absorbed (finalize m) it := fun it hit =>
      absorbed_finalize hwfm (absorbed_all hm it hit)
    rw [mergeItems_absorbed_eq habs]
    simp only [Option.map_some']
    rw [finalize_finalize]

/-! ## Generic preservation of per-bucket properties -/

/-- Every bucket of the document satisfies `P`. -/
def BucketPred (P : Bucket → Prop) (d : Doc) : Prop :=
  ∀ p ∈ d.venues, ∀ q ∈ p.2, P q.2

theorem bucketPred_ys0 {P : Bucket → Prop} {d : Doc} (v : String)
    (hd : BucketPred P d) :
    ∀ q ∈ ((alookup (mergeVens d.venues v) v).getD []), P q.2 := by
  intro q hq
  cases halv : alookup (mergeVens d.venues v) v with
  | none => rw [halv] at hq; simp at hq
  | some ys =>
    rw [halv] at hq
    simp only [Option.getD_some] at hq
    rcases mem_mergeVens (alookup_mem halv) with h2 | h2
    · exact hd _ h2 q hq
    · injection h2 with _ h3
      rw [h3] at hq
      simp at hq

theorem bucketPred_b {P : Bucket → Prop} {ys0 : List (String × Bucket)}
    (hfresh : P freshBucket) (hys0 : ∀ q ∈ ys0, P q.2) (y : String) :
    P ((alookup (mergeYears ys0 y) y).getD freshBucket) := by
  cases h : alookup (mergeYears ys0 y) y with
  | none => exact hfresh
  | some b =>
    simp only [Option.getD_some]
    rcases mem_mergeYears (alookup_mem h) with h2 | h2
    · exact hys0 _ h2
    · injection h2 with _ h3
      rw [h3]
      exact hfresh

theorem bucketPred_mergeItem {P : Bucket → Prop} (hfresh : P freshBucket)
    (hstep : ∀ b it venue year, P b →
      P { b with body := mergeBody b.body it venue year })
    {d : Doc} {it : RawItem} {d₁ : Doc}
    (hd : BucketPred P d) (h : mergeItem d it = some d₁) : BucketPred P d₁ := by
  cases hs : d.sectionKey with
  | none => rw [mergeItem, hs] at h; cases h
  | some sec =>
    rw [mergeItem, hs] at h
    simp only at h
    by_cases hv : it.bVenue = "section"
    · rw [if_pos hv] at h; cases h
    · rw [if_neg hv] at h
      injection h with h
      subst h
      intro p hp q hq
      rcases mem_updA hp with h1 | h1
      · rcases mem_mergeVens h1 with h2 | h2
        · exact hd p h2 q hq
        · rw [h2] at hq; simp at hq
      · rw [h1] at hq
        simp only at hq
        rcases mem_updA hq with h2 | h2
        · rcases mem_mergeYears h2 with h3 | h3
          · exact bucketPred_ys0 it.bVenue hd q h3
          · rw [h3]; exact hfresh
        · rw [h2]
          exact hstep _ _ _ _ (bucketPred_b hfresh (bucketPred_ys0 it.bVenue hd) _)

theorem bucketPred_mergeItems {P : Bucket → Prop} (hfresh : P freshBucket)
    (hstep : ∀ b it venue year, P b →
      P { b with body := mergeBody b.body it venue year })
    {l : List RawItem} :
    ∀ {d m : Doc}, BucketPred P d → mergeItems d l = some m → BucketPred P m := by
  induction l with
  | nil => intro d m hd h; injection h with h; exact h ▸ hd
  | cons it rest ih =>
    intro d m hd h
    rw [mergeItems] at h
    cases him : mergeItem d it with
    | none => rw [him] at h; cases h
    | some d₁ =>
      rw [him] at h
      exact ih (bucketPred_mergeItem hfresh hstep hd him) h

theorem bucketPred_finalize {P : Bucket → Prop} {d : Doc}
    (hd : BucketPred P d) : BucketPred P (finalize d) := by
  intro p hp q hq
  obtain ⟨r, hr, he⟩ := List.mem_map.mp hp
  rw [← he] at hq
  simp only at hq
  rw [sortYears, List.mem_insertionSort] at hq
  exact hd r hr q hq

theorem bucketPred_write {P : Bucket → Prop} (hfresh : P freshBucket)
    (hstep : ∀ b it venue year, P b →
      P { b with body := mergeBody b.body it venue year })
    {d d' : Doc} {items : List RawItem}
    (hd : BucketPred P d) (h : write_venue_yaml d items = some d') :
    BucketPred P d' := by
  unfold write_venue_yaml at h
  cases hm : mergeItems d items with
  | none => rw [hm] at h; cases h
  | some m =>
    rw [hm] at h
    simp only [Option.map_some'] at h
    injection h with h
    subst h
    exact bucketPred_finalize (bucketPred_mergeItems hfresh hstep hd hm)

/-! ## Claims C2 and C3: dedup and sort invariants -/

/-- Within every year-bucket, `body` has no two entries with the same title. -/
def NoDupTitles (d : Doc) : Prop :=
  BucketPred (fun b => (b.body.map Entry.title).Nodup) d

/-- Every year-bucket's `body` is sorted non-decreasing by title. -/
def BodiesSorted (d : Doc) : Prop :=
  BucketPred (fun b => List.Sorted titleLe b.body) d

/-- Within every venue, year keys are non-increasing in string order. -/
def YearsSorted (d : Doc) : Prop :=
  ∀ p ∈ d.venues, List.Sorted yearGe p.2

theorem nodup_mergeBody (body : List Entry) (it : RawItem) (venue year : String)
    (hn : (body.map Entry.title).Nodup) :
    ((mergeBody body it venue year).map Entry.title).Nodup := by
  unfold mergeBody
  split
  · exact hn
  · rename_i h
    have hnot : it.title ∉ body.map Entry.title := by
      intro hmem
      obtain ⟨e, he, ht⟩ := List.mem_map.mp hmem
      exact h (List.any_eq_true.mpr ⟨e, he, decide_eq_true ht⟩)
    have hperm :
        ((sortBody (body ++ [newEntry it venue year])).map Entry.title).Perm
          ((body ++ [newEntry it venue year]).map Entry.title) :=
      (List.perm_insertionSort titleLe _).map _
    rw [hperm.nodup_iff]
    simp only [List.map_append, List.map_cons, List.map_nil, newEntry]
    rw [List.nodup_append]
    refine ⟨hn, List.nodup_singleton _, ?_⟩
    intro a ha hb
    rw [List.mem_singleton] at hb
    exact hnot (hb ▸ ha)

theorem sorted_mergeBody (body : List Entry) (it : RawItem) (venue year : String)
    (hs : List.Sorted titleLe body) :
    List.Sorted titleLe (mergeBody body it venue year) := by
  unfold mergeBody
  split
  · exact hs
  · exact List.sorted_insertionSort titleLe _

/-- C2: After any merge, every year-bucket's body has at most one entry per
distinct title, even when the input item list repeats titles for the same
venue and year.  The hypothesis states the invariant for the starting
document (it holds for the initial `{"section": []}` document and, by this
theorem, for every document the merge ever persists). -/
theorem venue_merge_dedup_titles (d : Doc) (items : List RawItem) (d' : Doc)
    (hnd : NoDupTitles d) (h : write_venue_yaml d items = some d') :
    NoDupTitles d' :=
  bucketPred_write (by simp [freshBucket])
    (fun b it venue year hb => nodup_mergeBody b.body it venue year hb) hnd h

theorem yearsSorted_finalize (d : Doc) : YearsSorted (finalize d) := by
  intro p hp
  obtain ⟨r, hr, he⟩ := List.mem_map.mp hp
  rw [← he]
  exact List.sorted_insertionSort yearGe r.2

/-- C3: After any merge, every year-bucket's body is sorted non-decreasing
lexicographically by title (given that this held of the starting document,
as it does for the initial document and every merge output), and within
every venue the year keys are non-increasing in code-point string order —
unconditionally, since the trailing loop re-sorts every venue.  Both
comparisons are Python string comparisons, applied to non-numeric year
labels as well. -/
theorem venue_merge_sort_invariants (d : Doc) (items : List RawItem) (d' : Doc)
    (hbs : BodiesSorted d) (h : write_venue_yaml d items = some d') :
    BodiesSorted d' ∧ YearsSorted d' := by
  constructor
  · exact bucketPred_write (by simp [freshBucket])
      (fun b it venue year hb => sorted_mergeBody b.body it venue year hb) hbs h
  · unfold write_venue_yaml at h
    cases hm : mergeItems d items with
    | none => rw [hm] at h; cases h
    | some m =>
      rw [hm] at h
      simp only [Option.map_some'] at h
      injection h with h
      subst h
      exact yearsSorted_finalize m

/-! ## Concrete witnesses for C1-C3 -/

def witC1items : List RawItem :=
  [{ title := "Foo", venue := some "AAAI", year := some "2024",
     ee := some "", url := some "u" },
   { title := "Bar", venue := some "NeurIPS", year := some "2023",
     ee := some "e", url := some "" }]

def witC1doc : Doc :=
  { sectionKey := some ["AAAI", "NeurIPS"],
    venues :=
      [("AAAI", [("2024",
         { header := defaultHeader, length := defaultLength,
           body := [⟨"Foo", "AAAI", .int 2024, some "u"⟩] })]),
       ("NeurIPS", [("2023",
         { header := defaultHeader, length := defaultLength,
           body := [⟨"Bar", "NeurIPS", .int 2023, some "e"⟩] })])] }

/-- Witness for C1 at a concrete input. -/
theorem venue_merge_idempotent_witness :
    initDoc.WF ∧ write_venue_yaml initDoc witC1items = some witC1doc ∧
    write_venue_yaml witC1doc witC1items = some witC1doc := by
  have hwf : initDoc.WF := by
    constructor
    · exact List.nodup_nil
    · intro p hp; simp [initDoc] at hp
  have hw : write_venue_yaml initDoc witC1items = some witC1doc := by decide
  exact ⟨hwf, hw, venue_merge_idempotent initDoc witC1items witC1doc hwf hw⟩

def witC2items : List RawItem :=
  [{ title := "T", venue := some "V", year := some "2024",
     ee := some "", url := some "u" },
   { title := "T", venue := some "V", year := some "2024",
     ee := some "", url := some "u" }]

def witC2doc : Doc :=
  { sectionKey := some ["V"],
    venues := [("V", [("2024",
      { header := defaultHeader, length := defaultLength,
        body := [⟨"T", "V", .int 2024, some "u"⟩] })])] }

/-- Witness for C2: a duplicated input title yields a single body entry. -/
theorem venue_merge_dedup_titles_witness :
    NoDupTitles initDoc ∧ write_venue_yaml initDoc witC2items = some witC2doc ∧
    NoDupTitles witC2doc := by
  have hnd : NoDupTitles initDoc := by intro p hp; simp [initDoc] at hp
  have hw : write_venue_yaml initDoc witC2items = some witC2doc := by decide
  exact ⟨hnd, hw, venue_merge_dedup_titles initDoc witC2items witC2doc hnd hw⟩

def witC3items : List RawItem :=
  [{ title := "B", venue := some "V", year := some "2023",
     ee := some "e1", url := some "" },
   { title := "A", venue := some "V", year := some "2023",
     ee := some "", url := some "" },
   { title := "C", venue := some "V", year := some "2024",
     ee := none, url := none }]

def witC3doc : Doc :=
  { sectionKey := some ["V"],
    venues := [("V",
      [("2024",
        { header := defaultHeader, length := defaultLength,
          body := [⟨"C", "V", .int 2024, none⟩] }),
       ("2023",
        { header := defaultHeader, length := defaultLength,
          body := [⟨"A", "V", .int 2023, some ""⟩,
                   ⟨"B", "V", .int 2023, some "e1"⟩] })])] }

/-- Witness for C3: bodies sorted ascending by title, years descending. -/
theorem venue_merge_sort_invariants_witness :
    BodiesSorted initDoc ∧ write_venue_yaml initDoc witC3items = some witC3doc ∧
    BodiesSorted witC3doc ∧ YearsSorted witC3doc := by
  have hbs : BodiesSorted initDoc := by intro p hp; simp [initDoc] at hp
  have hw : write_venue_yaml initDoc witC3items = some witC3doc := by decide
  have hmain := venue_merge_sort_invariants initDoc witC3items witC3doc hbs hw
  exact ⟨hbs, hw, hmain.1, hmain.2⟩

/-! ## Single-item merges: claims C5, C7, C8 -/

/-- Merging one canonical item into the initial document, characterized in
full (shared helper for the link/venue-fallback claims). -/
theorem write_venue_yaml_single (it : Item) (hv : it.venue ≠ "section") :
    write_venue_yaml initDoc [it.raw] =
      some { sectionKey := some [it.venue],
             venues := [(it.venue, [(it.year,
               { header := defaultHeader, length := defaultLength,
                 body := [{ title := it.title, venue := it.venue,
                            year := pyYearVal it.year,
                            link := pyOr (some it.ee) (some it.url) }] })])] } := by
  simp [write_venue_yaml, mergeItems, mergeItem, Item.raw, RawItem.bVenue,
        RawItem.bYear, hv, mergeVens, mergeYears, mergeSection, mergeBody,
        alookup, updA, finalize, sortYears, sortBody, newEntry, freshBucket,
        initDoc]

/-- C7: Link selection falls back from `ee` to `url`: the stored link is
the `ee` field when non-empty, otherwise the `url` field (so empty `ee`
with non-empty `url` gives `link = url`, and both empty give the empty,
falsy link). -/
theorem link_fallback (it : Item) (hv : it.venue ≠ "section") :
    write_venue_yaml initDoc [it.raw] =
      some { sectionKey := some [it.venue],
             venues := [(it.venue, [(it.year,
               { header := defaultHeader, length := defaultLength,
                 body := [{ title := it.title, venue := it.venue,
                            year := pyYearVal it.year,
                            link := some (if it.ee = ""
                                          then it.url else it.ee) }] })])] } := by
  rw [write_venue_yaml_single it hv]
  have hl : pyOr (some it.ee) (some it.url) =
      some (if it.ee = "" then it.url else it.ee) := by
    unfold pyOr
    by_cases he : it.ee = "" <;> simp [he]
  rw [hl]

def witC7item : Item :=
  { author := "", title := "T", venue := "V", year := "2024", ptype := "",
    access := "", key := "", doi := "", ee := "", url := "u" }

/-- Witness for C7: empty `ee`, non-empty `url` gives `link = url`. -/
theorem link_fallback_witness :
    witC7item.venue ≠ "section" ∧
    write_venue_yaml initDoc [witC7item.raw] =
      some { sectionKey := some [witC7item.venue],
             venues := [(witC7item.venue, [(witC7item.year,
               { header := defaultHeader, length := defaultLength,
                 body := [{ title := witC7item.title, venue := witC7item.venue,
                            year := pyYearVal witC7item.year,
                            link := some (if witC7item.ee = ""
                                          then witC7item.url
                                          else witC7item.ee) }] })])] } :=
  ⟨by decide, link_fallback witC7item (by decide)⟩

def witC5item : Item :=
  { author := "", title := "T", venue := "", year := "", ptype := "",
    access := "", key := "", doi := "", ee := "", url := "" }

def witC5doc : Doc :=
  { sectionKey := some [""],
    venues := [("", [("",
      { header := defaultHeader, length := defaultLength,
        body := [⟨"T", "", .str "", some ""⟩] })])] }

/-- C5 counterexample: a normalizer-produced item whose `venue` and `year`
fields are the empty string is filed under the empty-string venue and the
empty-string year bucket — `"Unknown Venue"` / `"Unknown Year"` do not
appear, contradicting the claim.  (`item.get("venue", "Unknown Venue")`
falls back only for an absent key, and the normalizer always stores the
key, possibly as `""`.) -/
theorem venue_fallback_counterexample :
    write_venue_yaml initDoc [witC5item.raw] = some witC5doc ∧
    alookup witC5doc.venues "Unknown Venue" = none ∧
    alookup witC5doc.venues "" ≠ none ∧
    alookup ((alookup witC5doc.venues "").getD []) "Unknown Year" = none ∧
    alookup ((alookup witC5doc.venues "").getD []) "" ≠ none := by decide

/-- C5 amended: the `"Unknown Venue"` / `"Unknown Year"` fallbacks apply
only when the corresponding dict key is absent from the item.  Canonical
items produced by the normalizer always carry both keys (possibly as the
empty string), so such an item is filed under its literal venue and year
strings — under `""` when they are empty — while an item genuinely missing
both keys is filed under `"Unknown Venue"` / `"Unknown Year"`. -/
theorem venue_fallback_amended (it : Item) (hv : it.venue ≠ "section") :
    write_venue_yaml initDoc [it.raw] =
      some { sectionKey := some [it.venue],
             venues := [(it.venue, [(it.year,
               { header := defaultHeader, length := defaultLength,
                 body := [{ title := it.title, venue := it.venue,
                            year := pyYearVal it.year,
                            link := pyOr (some it.ee) (some it.url) }] })])] } ∧
    write_venue_yaml initDoc
        [{ title := "T", venue := none, year := none, ee := none, url := none }] =
      some { sectionKey := some ["Unknown Venue"],
             venues := [("Unknown Venue", [("Unknown Year",
               { header := defaultHeader, length := defaultLength,
                 body := [⟨"T", "Unknown Venue", .str "Unknown Year",
                           none⟩] })])] } :=
  ⟨write_venue_yaml_single it hv, by decide⟩

/-- Witness for the amended C5 at a concrete item with empty venue/year. -/
theorem venue_fallback_amended_witness :
    witC5item.venue ≠ "section" ∧
    write_venue_yaml initDoc [witC5item.raw] =
      some { sectionKey := some [witC5item.venue],
             venues := [(witC5item.venue, [(witC5item.year,
               { header := defaultHeader, length := defaultLength,
                 body := [{ title := witC5item.title, venue := witC5item.venue,
                            year := pyYearVal witC5item.year,
                            link := pyOr (some witC5item.ee)
                                         (some witC5item.url) }] })])] } :=
  ⟨by decide, (venue_fallback_amended witC5item (by decide)).1⟩

def witC8item : RawItem :=
  { title := "T", venue := some "V", year := some "2024",
    ee := some "", url := some "u" }

/-- C8 (code bug): when the venue file exists but its contents load as a
falsy value, line 196 initializes `data = {}` (not `{"section": []}` as the
spec states and as utils.py line 157 does in the sibling function), so the
first processed item raises `KeyError: 'section'` at line 206 instead of
proceeding from the empty/initial state.  The absent-file path does
initialize `{"section": []}` and succeeds. -/
theorem empty_load_keyerror :
    mergeFile .emptyLoad [witC8item] = none ∧
    mergeFile .absent [witC8item] ≠ none ∧
    loadVenueDoc .emptyLoad = { sectionKey := none, venues := [] } ∧
    loadVenueDoc .absent = initDoc := by decide

/-! ## Claim C4: cache filtering (main.py lines 29-31, 59-70) -/

/-- The DBLP cache: topic-query string mapped to the ordered list of
previously recorded canonical items. -/
abbrev Cache := List (String × List Item)

/-- `dblp_cache.get(topic_query, [])` (main.py line 60). -/
def cachedFor (cache : Cache) (topic : String) : List Item :=
  (alookup cache topic).getD []

/-- `new_items = [item for item in items if item not in cached_items]`
(main.py line 61): Python `not in` compares dicts by full structural
equality. -/
def filterNew (cache : Cache) (topic : String) (items : List Item) :
    List Item :=
  items.filter (fun it => decide (it ∉ cachedFor cache topic))

/-- main.py lines 68-70: `if topic_query not in dblp_cache:
dblp_cache[topic_query] = []` then `dblp_cache[topic_query].extend(...)`. -/
def recordSeen (cache : Cache) (topic : String) (newItems : List Item) :
    Cache :=
  let c1 := if alookup cache topic = none then cache ++ [(topic, [])] else cache
  updA c1 topic (cachedFor c1 topic ++ newItems)

/-- main.py lines 60-70 for one topic: filter against the cache, then — only
when something new was found — commit the new items to the cache.  Returns
the new items and the cache afterwards. -/
def topicStep (cache : Cache) (topic : String) (items : List Item) :
    List Item × Cache :=
  let newItems := filterNew cache topic items
  if 0 < newItems.length then (newItems, recordSeen cache topic newItems)
  else (newItems, cache)

/-- C4: `filterNew` excludes exactly the items recorded (by full structural
equality) under that exact topic, keeps all others, preserves the input's
relative order (it is a sublist of the input), and filtering alone leaves
the cache untouched: `topicStep` pairs the filtered list with a cache that
is either unchanged (nothing new) or updated by the separate `recordSeen`
commit. -/
theorem cache_filter_spec (cache : Cache) (topic : String) (items : List Item) :
    (filterNew cache topic items).Sublist items ∧
    (∀ it, it ∈ filterNew cache topic items ↔
      (it ∈ items ∧ it ∉ cachedFor cache topic)) ∧
    topicStep cache topic items =
      (filterNew cache topic items,
       if 0 < (filterNew cache topic items).length
       then recordSeen cache topic (filterNew cache topic items)
       else cache) := by
  refine ⟨List.filter_sublist _, ?_, ?_⟩
  · intro it
    rw [filterNew, List.mem_filter]
    simp
  · unfold topicStep
    by_cases hc : 0 < (filterNew cache topic items).length <;> simp [hc]

def witC4cache : Cache :=
  [("t",
    [{ author := "A", title := "P1", venue := "V", year := "2024", ptype := "",
       access := "", key := "", doi := "", ee := "", url := "" }])]

def witC4items : List Item :=
  [{ author := "A", title := "P1", venue := "V", year := "2024", ptype := "",
     access := "", key := "", doi := "", ee := "", url := "" },
   { author := "B", title := "P2", venue := "V", year := "2024", ptype := "",
     access := "", key := "", doi := "", ee := "", url := "" }]

/-- Witness for C4 at a concrete cache and candidate list. -/
theorem cache_filter_spec_witness :
    (filterNew witC4cache "t" witC4items).Sublist witC4items ∧
    (∀ it, it ∈ filterNew witC4cache "t" witC4items ↔
      (it ∈ witC4items ∧ it ∉ cachedFor witC4cache "t")) ∧
    topicStep witC4cache "t" witC4items =
      (filterNew witC4cache "t" witC4items,
       if 0 < (filterNew witC4cache "t" witC4items).length
       then recordSeen witC4cache "t" (filterNew witC4cache "t" witC4items)
       else witC4cache) :=
  cache_filter_spec witC4cache "t" witC4items

/-! ## Claim C9: message truncation (main.py lines 84-90) -/

/-- `output_msg = aggregated_msg[:4000] + "..." if len(aggregated_msg) > 4096
else aggregated_msg` (main.py line 89).  Python string length and slicing
count characters, modelled on the code-point list. -/
def clipMsg (msg : String) : String :=
  if 4096 < msg.data.length then String.mk (msg.data.take 4000) ++ "..." else msg

/-- C9: a message longer than 4096 characters is published as exactly its
first 4000 characters plus the trailing `"..."` marker; a message of at
most 4096 characters is published unmodified. -/
theorem message_truncation (msg : String) :
    (4096 < msg.data.length →
      clipMsg msg = String.mk (msg.data.take 4000) ++ "..." ∧
      (clipMsg msg).data.length = 4003) ∧
    (msg.data.length ≤ 4096 → clipMsg msg = msg) := by
  constructor
  · intro h
    refine ⟨by rw [clipMsg, if_pos h], ?_⟩
    rw [clipMsg, if_pos h]
    have he : (String.mk (msg.data.take 4000) ++ ("..." : String)) =
        String.mk (msg.data.take 4000 ++ ("..." : String).data) := rfl
    rw [he]
    show (msg.data.take 4000 ++ ("..." : String).data).length = 4003
    rw [List.length_append, List.length_take]
    have hm : min 4000 msg.data.length = 4000 :=
      Nat.min_eq_left (Nat.le_of_lt (Nat.lt_trans (by norm_num) h))
    rw [hm]
    decide
  · intro h
    rw [clipMsg, if_neg (Nat.not_lt.mpr h)]

def witC9msg : String := String.mk (List.replicate 5000 (Char.ofNat 97))

/-- Witness for C9: a 5000-character message is clipped to its first 4000
characters plus the ellipsis marker; a short message passes unmodified. -/
theorem message_truncation_witness :
    (4096 < witC9msg.data.length ∧
      clipMsg witC9msg = String.mk (witC9msg.data.take 4000) ++ "..." ∧
      (clipMsg witC9msg).data.length = 4003) ∧
    ("hi" : String).data.length ≤ 4096 ∧ clipMsg "hi" = "hi" := by
  have h1 : 4096 < witC9msg.data.length := by
    rw [witC9msg]
    show 4096 < (List.replicate 5000 (Char.ofNat 97)).length
    rw [List.length_replicate]
    norm_num
  have h2 : ("hi" : String).data.length ≤ 4096 := by decide
  exact ⟨⟨h1, (message_truncation witC9msg).1 h1⟩,
         h2, (message_truncation "hi").2 h2⟩

/-! ## Claim C10: `get_msg` (utils.py lines 114-133) -/

/-- Value of an ASCII hex digit. -/
def hexVal (c : Char) : Option Nat :=
  if 48 ≤ c.toNat ∧ c.toNat ≤ 57 then some (c.toNat - 48)
  else if 65 ≤ c.toNat ∧ c.toNat ≤ 70 then some (c.toNat - 55)
  else if 97 ≤ c.toNat ∧ c.toNat ≤ 102 then some (c.toNat - 87)
  else none

/-- `urllib.parse.unquote` on the code-point list, restricted to
single-byte escapes: `%XX` with two hex digits decodes to code point `XX`;
an invalid escape is left as a literal `%`, as in Python. -/
def pyUnquote : List Char → List Char
  | [] => []
  | '%' :: a :: b :: rest =>
    match hexVal a, hexVal b with
    | some x, some y => Char.ofNat (16 * x + y) :: pyUnquote rest
    | _, _ => '%' :: pyUnquote (a :: b :: rest)
  | c :: rest => c :: pyUnquote rest

/-- Python `s.split(sep)` for a one-character separator: splitting on every
occurrence, keeping empty segments; `"".split(sep) == [""]`. -/
def pySplit (sep : Char) : List Char → List (List Char)
  | [] => [[]]
  | c :: rest =>
    if c = sep then [] :: pySplit sep rest
    else
      match pySplit sep rest with
      | [] => [[c]]
      | g :: gs => (c :: g) :: gs

theorem pySplit_ne_nil (sep : Char) : ∀ l : List Char, pySplit sep l ≠ [] := by
  intro l
  induction l with
  | nil => simp [pySplit]
  | cons c rest ih =>
    rw [pySplit]
    split
    · simp
    · cases h : pySplit sep rest with
      | nil => simp
      | cons g gs => simp

theorem length_pySplit (sep : Char) :
    ∀ l : List Char, (pySplit sep l).length = l.count sep + 1 := by
  intro l
  induction l with
  | nil => simp [pySplit]
  | cons c rest ih =>
    rw [pySplit]
    by_cases hc : c = sep
    · rw [if_pos hc]
      simp only [List.length_cons, ih]
      rw [List.count_cons]
      simp [hc]
    · rw [if_neg hc]
      cases h : pySplit sep rest with
      | nil => exact absurd h (pySplit_ne_nil sep rest)
      | cons g gs =>
        simp only [List.length_cons]
        have := ih
        rw [h] at this
        simp only [List.length_cons] at this
        rw [List.count_cons]
        simp only [hc, beq_iff_eq, if_false]
        omega

/-- `msg.replace("'", "")` (line 132): drop every apostrophe. -/
def stripApos (s : String) : String :=
  String.mk (s.data.filter (fun c => c.toNat ≠ 39))

/-- Lines 121-132: the message text rendered for a topic display name.
`\\n` in the Python f-strings is an escaped backslash followed by `n`, i.e.
the two characters `\n`, not a newline. -/
def msgBody (name topic : String) (items : List Item) (aggregated : Bool) :
    String :=
  let msg := "## [" ++ name ++ "](https://dblp.org/search?q=" ++ topic
    ++ ")\\n\\n" ++ "Explore " ++ toString items.length
    ++ " new papers about " ++ name ++ ".\\n\\n"
  let msg := if aggregated = false then
      msg ++ String.join (items.map (fun it =>
        it.title ++ "\\n" ++ "- Year: " ++ it.year ++ "\\n\\n"))
    else msg
  stripApos msg

/-- `get_msg` (lines 114-133): unquote the topic, split on `':'`, take the
second-to-last segment as the display name, render the message.  `none`
models the `IndexError` that `split(":")[-2]` raises when the split has
fewer than two segments. -/
def get_msg (items : List Item) (topic : String) (aggregated : Bool) :
    Option String :=
  let parts := pySplit ':' (pyUnquote topic.data)
  if 2 ≤ parts.length then
    some (msgBody (String.mk (parts.getD (parts.length - 2) []))
      topic items aggregated)
  else none

/-- C10: `get_msg` returns a message (naming the second-to-last
colon-delimited segment of the unescaped topic) exactly when the unescaped
topic contains at least one `':'`; on a colon-free topic it raises
`IndexError` (modelled as `none`) instead of returning text. -/
theorem get_msg_totality (items : List Item) (topic : String)
    (aggregated : Bool) :
    ((get_msg items topic aggregated).isSome ↔ ':' ∈ pyUnquote topic.data) ∧
    (':' ∈ pyUnquote topic.data →
      get_msg items topic aggregated =
        some (msgBody
          (String.mk ((pySplit ':' (pyUnquote topic.data)).getD
            ((pySplit ':' (pyUnquote topic.data)).length - 2) []))
          topic items aggregated)) := by
  have key : 2 ≤ (pySplit ':' (pyUnquote topic.data)).length ↔
      ':' ∈ pyUnquote topic.data := by
    rw [length_pySplit]
    constructor
    · intro h
      exact List.count_pos_iff.mp (by omega)
    · intro h
      have := List.count_pos_iff.mpr h
      omega
  unfold get_msg
  by_cases hc : 2 ≤ (pySplit ':' (pyUnquote topic.data)).length
  · rw [if_pos hc]
    exact ⟨by simp [key.mp hc], fun _ => rfl⟩
  · rw [if_neg hc]
    constructor
    · simp only [Option.isSome_none, Bool.false_eq_true, false_iff]
      exact fun hm => hc (key.mpr hm)
    · intro hm
      exact absurd (key.mpr hm) hc

/-- Witness for C10: `"q%3Aphysics:x"` unescapes to `"q:physics:x"`, whose
second-to-last segment is `"physics"`. -/
theorem get_msg_totality_witness :
    ':' ∈ pyUnquote ("q%3Aphysics:x" : String).data ∧
    get_msg [] "q%3Aphysics:x" true =
      some (msgBody
        (String.mk ((pySplit ':' (pyUnquote ("q%3Aphysics:x" : String).data)).getD
          ((pySplit ':' (pyUnquote ("q%3Aphysics:x" : String).data)).length - 2) []))
        "q%3Aphysics:x" [] true) := by
  have h : ':' ∈ pyUnquote ("q%3Aphysics:x" : String).data := by decide
  exact ⟨h, (get_msg_totality [] "q%3Aphysics:x" true).2 h⟩

example : pyUnquote ("q%3Aphysics:x" : String).data = ("q:physics:x" : String).data := by decide

example :
    pySplit ':' ("q:physics:x" : String).data =
      [("q" : String).data, ("physics" : String).data, ("x" : String).data] := by
  decide

/-! ## Claim C6: the normalizer `get_dblp_items` (utils.py lines 68-111) -/

/-- Dynamically typed JSON-ish values handled by the normalizer. -/
inductive PyVal where
  | str (s : String)
  | num (n : Int)
  | list (xs : List PyVal)
  | obj (fields : List (String × PyVal))

/-- Python truthiness for the value shapes above. -/
def PyVal.truthy : PyVal → Bool
  | .str s => s != ""
  | .num n => n != 0
  | .list xs => !xs.isEmpty
  | .obj fs => !fs.isEmpty

/-- `get_item_info` (utils.py 61-65): `item[key]`, with `KeyError` caught
and turned into `""`.  Subscripting a non-dict raises `TypeError`, which is
not caught there (`none`). -/
def get_item_info (v : PyVal) (key : String) : Option PyVal :=
  match v with
  | .obj fs => some ((alookup fs key).getD (.str ""))
  | _ => none

/-- Bare `v[key]` with no handler: any failure propagates (`none`). -/
def pySubscript (v : PyVal) (key : String) : Option PyVal :=
  match v with
  | .obj fs => alookup fs key
  | _ => none

/-- `for x in v`: lists yield elements, dicts yield their keys, strings
yield their one-character substrings; iterating a number raises. -/
def pyIterVals : PyVal → Option (List PyVal)
  | .list xs => some xs
  | .obj fs => some (fs.map (fun p => PyVal.str p.1))
  | .str s => some (s.data.map (fun c => PyVal.str (String.mk [c])))
  | .num _ => none

/-- Substring test on code-point lists (Python `needle in s`). -/
def substrTest : List Char → List Char → Bool
  | needle, [] => needle.isEmpty
  | needle, c :: rest => needle.isPrefixOf (c :: rest) || substrTest needle rest

/-- Python `needle in v` for a string needle: substring test on strings,
element test on lists, key test on dicts; raises on a number. -/
def pyContains (v : PyVal) (needle : String) : Option Bool :=
  match v with
  | .str s => some (substrTest needle.data s.data)
  | .list xs => some (xs.any (fun x => match x with
      | .str t => t == needle
      | _ => false))
  | .obj fs => some (fs.any (fun p => p.1 == needle))
  | .num _ => none

/-- Outcome of the list comprehension
`[author["text"] for author in authors["author"]]` (line 82). -/
inductive AuthRes where
  | names (vs : List PyVal)
  | typeErr
  | raised

/-- `author["text"]` for one element of the iteration. -/
def compElem (author : PyVal) : AuthRes :=
  match author with
  | .obj fs =>
    match alookup fs "text" with
    | some v => .names [v]
    | none => .raised
  | _ => .typeErr

/-- The comprehension, left to right; the first exception wins. -/
def compList : List PyVal → AuthRes
  | [] => .names []
  | a :: rest =>
    match compElem a with
    | .names vs =>
      match compList rest with
      | .names vs2 => .names (vs ++ vs2)
      | r => r
    | r => r

/-- The `try` block of lines 81-82.  A dict-shaped `authors` without an
`"author"` key raises `KeyError`, which `except TypeError` does not catch;
subscripting a non-dict raises `TypeError`, which it does. -/
def tryAuthors (authors : PyVal) : AuthRes :=
  match authors with
  | .obj fs =>
    match alookup fs "author" with
    | none => .raised
    | some av =>
      match pyIterVals av with
      | none => .typeErr
      | some vs => compList vs
  | _ => .typeErr

/-- Per-hit outcome: included with author values, skipped (`continue`), or
an uncaught exception. -/
inductive HitOutcome where
  | incl (vs : List PyVal)
  | skip
  | raised

/-- The `except TypeError` handler (lines 83-89): skip when `"author"` is
not in `authors` or `"text"` is not in `authors["author"]`; otherwise use
the single author record.  Exceptions inside the handler propagate. -/
def exceptHandler (authors : PyVal) : HitOutcome :=
  match pyContains authors "author" with
  | none => .raised
  | some false => .skip
  | some true =>
    match pySubscript authors "author" with
    | none => .raised
    | some av =>
      match pyContains av "text" with
      | none => .raised
      | some false => .skip
      | some true =>
        match pySubscript av "text" with
        | none => .raised
        | some tv => .incl [tv]

/-- `", ".join(authors)` (line 93): raises unless all values are strings. -/
def pyJoinAuthors : List PyVal → Option String
  | [] => some ""
  | [PyVal.str s] => some s
  | PyVal.str s :: rest =>
    match pyJoinAuthors rest with
    | some s2 => some (s ++ ", " ++ s2)
    | none => none
  | _ => none

/-- `needed_keys` (lines 94-104). -/
def neededKeys : List String :=
  ["title", "venue", "year", "type", "access", "key", "doi", "ee", "url"]

/-- Lines 105-107: for each needed key, look it up in `item["info"]`
(missing key becomes `""`), and replace any falsy value by `""`. -/
def neededFields (info : PyVal) : Option (List (String × PyVal)) :=
  match info with
  | .obj fs => some (neededKeys.map (fun k =>
      let v := (alookup fs k).getD (.str "")
      (k, if v.truthy then v else .str "")))
  | _ => none

/-- Canonical record built for one hit: the joined author display string
plus the needed fields. -/
structure NormItem where
  author : String
  fields : List (String × PyVal)

/-- Lines 77-109 for one hit.  `none`: an exception propagates out of
`get_dblp_items`; `some none`: the hit is skipped (`continue`);
`some (some r)`: the hit contributes record `r`. -/
def processHit (hit : PyVal) : Option (Option NormItem) :=
  match hit with
  | .obj hfs =>
    match alookup hfs "info" with
    | none => none
    | some info =>
      match get_item_info info "authors" with
      | none => none
      | some authors =>
        match
          (match tryAuthors authors with
           | .names vs => HitOutcome.incl vs
           | .raised => HitOutcome.raised
           | .typeErr => exceptHandler authors) with
        | .raised => none
        | .skip => some none
        | .incl vs =>
          match pyJoinAuthors vs with
          | none => none
          | some author =>
            match neededFields info with
            | none => none
            | some fs => some (some { author := author, fields := fs })
  | _ => none

/-- The `for item in items` loop, preserving input order. -/
def collectHits : List PyVal → Option (List NormItem)
  | [] => some []
  | h :: rest =>
    match processHit h with
    | none => none
    | some none => collectHits rest
    | some (some r) => (collectHits rest).map (fun l => r :: l)

/-- Result of one dict subscription in the guarded chain of line 70. -/
inductive ChainRes where
  | ok (v : PyVal)
  | keyErr
  | typeErr

def chainGet (v : PyVal) (key : String) : ChainRes :=
  match v with
  | .obj fs =>
    match alookup fs key with
    | some x => .ok x
    | none => .keyErr
  | _ => .typeErr

/-- `dblp_data["result"]["hits"]["hit"]` (line 70). -/
def chain3 (v : PyVal) : ChainRes :=
  match chainGet v "result" with
  | .ok v1 =>
    match chainGet v1 "hits" with
    | .ok v2 => chainGet v2 "hit"
    | .keyErr => .keyErr
    | .typeErr => .typeErr
  | .keyErr => .keyErr
  | .typeErr => .typeErr

/-- `get_dblp_items` (lines 68-111): `KeyError` on the chain yields zero
items; `TypeError` propagates; then each hit is normalized in order. -/
def get_dblp_items (dblp_data : PyVal) : Option (List NormItem) :=
  match chain3 dblp_data with
  | .typeErr => none
  | .keyErr => some []
  | .ok hits =>
    match pyIterVals hits with
    | none => none
    | some hs => collectHits hs

/-! ### Concrete C6 inputs -/

/-- Fields produced for an info dict carrying only a title. -/
def onlyTitle (t : String) : List (String × PyVal) :=
  [("title", .str t), ("venue", .str ""), ("year", .str ""),
   ("type", .str ""), ("access", .str ""), ("key", .str ""),
   ("doi", .str ""), ("ee", .str ""), ("url", .str "")]

/-- Hit with the sequence author shape `[{text: Alice}, {text: Bob}]`. -/
def hitTwoAuthors : PyVal :=
  .obj [("info", .obj
    [("authors", .obj [("author", .list
       [.obj [("text", .str "Alice")], .obj [("text", .str "Bob")]])]),
     ("title", .str "P1")])]

/-- Hit with the single-author non-sequence shape `{text: Carol}`. -/
def hitSingleAuthor : PyVal :=
  .obj [("info", .obj
    [("authors", .obj [("author", .obj [("text", .str "Carol")])]),
     ("title", .str "P2")])]

/-- Hit with no `authors` key at all (normalized to `""`). -/
def hitNoAuthors : PyVal :=
  .obj [("info", .obj [("title", .str "P3")])]

/-- Hit whose single author record lacks `text`. -/
def hitNoText : PyVal :=
  .obj [("info", .obj
    [("authors", .obj [("author", .obj [("name", .str "Dave")])]),
     ("title", .str "P4")])]

/-- A later sibling hit, to observe that skips leave siblings intact. -/
def hitLater : PyVal :=
  .obj [("info", .obj
    [("authors", .obj [("author", .list
       [.obj [("text", .str "Eve")], .obj [("text", .str "Frank")]])]),
     ("title", .str "P5")])]

/-- Hit whose dict-shaped `authors` lacks the `author` key. -/
def hitMissingAuthorKey : PyVal :=
  .obj [("info", .obj
    [("authors", .obj [("total", .str "2")]),
     ("title", .str "PX")])]

def wrapHits (hs : List PyVal) : PyVal :=
  .obj [("result", .obj [("hits", .obj [("hit", .list hs)])])]

/-- C6 counterexample: a hit whose authors structure is a dict missing the
`author` key is not silently skipped — `authors["author"]` raises
`KeyError`, which `except TypeError` does not catch, so the whole
normalization raises and the sibling hits are lost too, contradicting the
claim that such a hit is "omitted from the output without raising, leaving
sibling hits unaffected". -/
theorem author_missing_key_counterexample :
    get_dblp_items (wrapHits [hitTwoAuthors, hitMissingAuthorKey, hitLater])
      = none ∧
    get_dblp_items (wrapHits [hitTwoAuthors, hitLater]) =
      some [{ author := "Alice, Bob", fields := onlyTitle "P1" },
            { author := "Eve, Frank", fields := onlyTitle "P5" }] := by
  constructor
  · rfl
  · rfl

/-- C6 amended: the two claimed author shapes normalize as stated
(`"Alice, Bob"` for the sequence shape, `"Carol"` for the single
non-sequence shape), and a hit whose `authors` value is missing entirely
(normalized to `""`) or whose single author record lacks `text` is skipped
without raising, leaving sibling hits unaffected; but a dict-shaped
`authors` missing the `author` key raises an uncaught `KeyError` that
aborts the whole normalization (see the counterexample). -/
theorem author_shapes_amended :
    get_dblp_items
        (wrapHits [hitTwoAuthors, hitSingleAuthor, hitNoAuthors, hitNoText,
                   hitLater]) =
      some [{ author := "Alice, Bob", fields := onlyTitle "P1" },
            { author := "Carol", fields := onlyTitle "P2" },
            { author := "Eve, Frank", fields := onlyTitle "P5" }] := by
  rfl
